import Mathlib

/-!
Verification of `smoothdata` (src/smoothdata.py).

The function smooths a scipp variable along a named dimension `dim` by a
moving average of `NPoints` points, with truncated windows at the ends.
We embed the code shallowly:

* the tensor is modelled as a `List Row` indexed along `dim`, where each
  `Row : List ℚ` holds the values of the remaining dimensions;
* `sc.mean(v, dim)` is the pointwise arithmetic mean of the rows;
* Python slice and index semantics (negative indices counted from the
  end, slices clamped to the valid range, out-of-range integer indexing
  raising `IndexError`) are modelled explicitly by `pySlice`, `pyIndex`
  and `pySet`;
* the three `for` loops are structural recursion over the (integer)
  `range` lists, threading an explicit state `SState` that carries both
  the read-only input `var` and the output `out` (initially a copy of
  the input, matching `out = variable.copy()`);
* the two `ValueError`s and scipp's `IndexError` are the constructors of
  `SmoothError`, and `smoothdataS` returns `Except SmoothError SState`.
-/

/-- Values of the non-smoothed dimensions at one position along `dim`. -/
abbrev Row := List ℚ

/-- Pointwise sum of two rows (`zipWith (+)`). -/
def addRow (a b : Row) : Row := List.zipWith (fun x y => x + y) a b

/-- Pointwise sum of a list of rows.  The singleton base case keeps the
shape of the (unique) row. -/
def sumRows : List Row → Row
  | [] => []
  | [r] => r
  | r :: s :: t => addRow r (sumRows (s :: t))

/-- `sc.mean(rows, dim)`: pointwise arithmetic mean of the rows. -/
def scMean (rows : List Row) : Row :=
  (sumRows rows).map (fun x => x / (rows.length : ℚ))

/-- A Python index adjusted for negative values: `i + N` when `i < 0`. -/
def pyAdjust (N : ℕ) (i : ℤ) : ℤ := if i < 0 then (N : ℤ) + i else i

/-- A Python slice endpoint: adjusted for negative values, then clamped
to `[0, N]`. -/
def sliceBound (N : ℕ) (i : ℤ) : ℕ := (min (N : ℤ) (pyAdjust N i)).toNat

/-- Python slicing `xs[a:b]` (half-open, clamped, negatives from the end). -/
def pySlice (xs : List Row) (a b : ℤ) : List Row :=
  (xs.take (sliceBound xs.length b)).drop (sliceBound xs.length a)

/-- Python integer indexing: `some` of the in-range position, or `none`
when the (adjusted) index is out of range (an `IndexError`). -/
def pyIndex (N : ℕ) (i : ℤ) : Option ℕ :=
  if 0 ≤ pyAdjust N i ∧ pyAdjust N i < (N : ℤ) then some (pyAdjust N i).toNat else none

/-- Python indexed assignment `xs[i] = v`; `none` on `IndexError`. -/
def pySet (xs : List Row) (i : ℤ) (v : Row) : Option (List Row) :=
  match pyIndex xs.length i with
  | some j => some (xs.set j v)
  | none => none

/-- Python `range(a, b)` over integers. -/
def intRange (a b : ℤ) : List ℤ := (List.range (b - a).toNat).map (fun k : ℕ => a + (k : ℤ))

/-- The errors `smoothdata` can raise: the two `ValueError`s of the
precondition checks, and scipp's `IndexError` on an out-of-range write. -/
inductive SmoothError where
  | missingDim : SmoothError
  | windowTooSmall : SmoothError
  | indexError : SmoothError
deriving DecidableEq

/-- The state of the loop body: the read-only input `var` and the output
`out` being filled in. -/
structure SState where
  var : List Row
  out : List Row
deriving DecidableEq

/-- One iteration of a smoothing loop:
`out[dim, i] = sc.mean(variable[dim, lo:hi], dim)` with `(lo, hi) = bounds i`. -/
def loopStep (bounds : ℤ → ℤ × ℤ) (s : SState) (i : ℤ) : Except SmoothError SState :=
  match pySet s.out i (scMean (pySlice s.var (bounds i).1 (bounds i).2)) with
  | some o => .ok ⟨s.var, o⟩
  | none => .error .indexError

/-- A full smoothing loop over the index list `idxs`. -/
def runLoopS (bounds : ℤ → ℤ × ℤ) (idxs : List ℤ) (s : SState) : Except SmoothError SState :=
  match idxs with
  | [] => .ok s
  | i :: rest =>
    match loopStep bounds s i with
    | .ok s1 => runLoopS bounds rest s1
    | .error e => .error e

/-- `hr = NPoints//2` (Python floor division). -/
def halfRange (NPoints : ℤ) : ℤ := Int.fdiv NPoints 2

/-- Window of the start loop: `lo = 0`, `hi = i + hr + 1`. -/
def startBounds (hr : ℤ) (i : ℤ) : ℤ × ℤ := (0, i + hr + 1)

/-- Window of the main loop: `lo = i - hr`, `hi = i + hr + 1`. -/
def mainBounds (hr : ℤ) (i : ℤ) : ℤ × ℤ := (i - hr, i + hr + 1)

/-- Window of the end loop: `lo = i - hr`, `hi = N`. -/
def endBounds (N : ℤ) (hr : ℤ) (i : ℤ) : ℤ × ℤ := (i - hr, N)

/-- The embedding of `smoothdata`: the two precondition checks, then the
three loops (start, main, end) run in order on the state
`⟨var, var⟩` (the second component models `out = variable.copy()`). -/
def smoothdataS (var : List Row) (dim : Option String) (NPoints : ℤ) :
    Except SmoothError SState :=
  match dim with
  | none => .error .missingDim
  | some _ =>
    if NPoints < 3 then .error .windowTooSmall
    else
      match runLoopS (startBounds (halfRange NPoints)) (intRange 0 (halfRange NPoints))
          ⟨var, var⟩ with
      | .error e => .error e
      | .ok s1 =>
        match runLoopS (mainBounds (halfRange NPoints))
            (intRange (halfRange NPoints) ((var.length : ℤ) - halfRange NPoints)) s1 with
        | .error e => .error e
        | .ok s2 =>
          runLoopS (endBounds (var.length : ℤ) (halfRange NPoints))
            (intRange ((var.length : ℤ) - halfRange NPoints) (var.length : ℤ)) s2

/-- The value returned by `smoothdata` (the `out` component). -/
def smoothdata (var : List Row) (dim : Option String) (NPoints : ℤ) :
    Except SmoothError (List Row) :=
  (smoothdataS var dim NPoints).map SState.out

/-- The window bounds that determine the final value at index `j`: the
bounds of the last of the three loops that writes `j`.  The end loop runs
last, then the main loop, then the start loop. -/
def lastBounds (N hr : ℤ) (j : ℤ) : ℤ × ℤ :=
  if N - hr ≤ j then endBounds N hr j
  else if hr ≤ j then mainBounds hr j
  else startBounds hr j

/-! ### Basic facts about the Python primitives -/

theorem mem_intRange {a b i : ℤ} : i ∈ intRange a b ↔ a ≤ i ∧ i < b := by
  simp only [intRange, List.mem_map, List.mem_range]
  constructor
  · rintro ⟨k, hk, hek⟩
    have hek2 : a + (k : ℤ) = i := hek
    omega
  · rintro ⟨h1, h2⟩
    refine ⟨(i - a).toNat, by omega, ?_⟩
    show a + ((i - a).toNat : ℤ) = i
    omega

theorem intRange_nodup (a b : ℤ) : (intRange a b).Nodup := by
  unfold intRange
  refine List.Nodup.map ?_ (List.nodup_range _)
  intro x y h
  have h2 : a + (x : ℤ) = a + (y : ℤ) := h
  omega

theorem pyIndex_eq_some {N : ℕ} {i : ℤ} (h0 : 0 ≤ i) (hN : i < (N : ℤ)) :
    pyIndex N i = some i.toNat := by
  unfold pyIndex pyAdjust
  rw [if_neg (by omega : ¬ i < 0), if_pos ⟨h0, hN⟩]

theorem pyIndex_eq_none {N : ℕ} {i : ℤ} (h0 : 0 ≤ i) (hN : (N : ℤ) ≤ i) :
    pyIndex N i = none := by
  unfold pyIndex pyAdjust
  rw [if_neg (by omega : ¬ i < 0), if_neg (by omega)]

theorem pyIndex_lt {N : ℕ} {i : ℤ} {j : ℕ} (h : pyIndex N i = some j) : j < N := by
  unfold pyIndex at h
  by_cases hc : 0 ≤ pyAdjust N i ∧ pyAdjust N i < (N : ℤ)
  · rw [if_pos hc] at h
    injection h with h
    omega
  · rw [if_neg hc] at h
    cases h

theorem pyIndex_some_iff {N : ℕ} {i : ℤ} {j : ℕ} (h0 : 0 ≤ i) :
    pyIndex N i = some j ↔ i = (j : ℤ) ∧ j < N := by
  unfold pyIndex pyAdjust
  rw [if_neg (by omega : ¬ i < 0)]
  by_cases hc : 0 ≤ i ∧ i < (N : ℤ)
  · rw [if_pos hc]
    constructor
    · intro he
      injection he with he
      omega
    · rintro ⟨rfl, hj⟩
      have h2 : ((j : ℤ)).toNat = j := by omega
      rw [h2]
  · rw [if_neg hc]
    constructor
    · intro he
      cases he
    · rintro ⟨rfl, hj⟩
      exact absurd ⟨h0, by omega⟩ hc

theorem sliceBound_coe (N : ℕ) (i : ℤ) :
    (sliceBound N i : ℤ) = max (min (N : ℤ) (pyAdjust N i)) 0 := by
  unfold sliceBound
  exact Int.toNat_eq_max _

theorem sliceBound_le (N : ℕ) (i : ℤ) : sliceBound N i ≤ N := by
  have h := sliceBound_coe N i
  omega

theorem pySlice_length (xs : List Row) (a b : ℤ) :
    (pySlice xs a b).length = sliceBound xs.length b - sliceBound xs.length a := by
  unfold pySlice
  rw [List.length_drop, List.length_take]
  have h := sliceBound_le xs.length b
  omega

theorem pySlice_subset {xs : List Row} {a b : ℤ} {r : Row} (h : r ∈ pySlice xs a b) :
    r ∈ xs := by
  unfold pySlice at h
  exact List.take_subset _ _ (List.drop_subset _ _ h)

theorem pySlice_pos_of_nonneg (xs : List Row) (a b : ℤ) (h0 : 0 ≤ a)
    (hab : a < b) (haN : a < (xs.length : ℤ)) :
    0 < (pySlice xs a b).length := by
  rw [pySlice_length]
  have hA := sliceBound_coe xs.length a
  have hB := sliceBound_coe xs.length b
  unfold pyAdjust at hA hB
  rw [if_neg (by omega : ¬ a < 0)] at hA
  rw [if_neg (by omega : ¬ b < 0)] at hB
  omega

theorem pySlice_pos_end (xs : List Row) (a : ℤ) (h1 : 1 ≤ xs.length)
    (haN : a < (xs.length : ℤ)) :
    0 < (pySlice xs a (xs.length : ℤ)).length := by
  rw [pySlice_length]
  have hA := sliceBound_coe xs.length a
  have hB := sliceBound_coe xs.length (xs.length : ℤ)
  unfold pyAdjust at hA hB
  rw [if_neg (by omega : ¬ (xs.length : ℤ) < 0)] at hB
  by_cases hneg : a < 0
  · rw [if_pos hneg] at hA
    omega
  · rw [if_neg hneg] at hA
    omega

/-! ### Facts about the loops -/

theorem loopStep_of_some {bounds : ℤ → ℤ × ℤ} {s : SState} {i : ℤ} {j : ℕ}
    (h : pyIndex s.out.length i = some j) :
    loopStep bounds s i =
      .ok ⟨s.var, s.out.set j (scMean (pySlice s.var (bounds i).1 (bounds i).2))⟩ := by
  unfold loopStep pySet
  rw [h]

theorem loopStep_of_none {bounds : ℤ → ℤ × ℤ} {s : SState} {i : ℤ}
    (h : pyIndex s.out.length i = none) :
    loopStep bounds s i = .error .indexError := by
  unfold loopStep pySet
  rw [h]

theorem runLoopS_cons_some {bounds : ℤ → ℤ × ℤ} {s : SState} {i : ℤ} {j : ℕ}
    (rest : List ℤ) (h : pyIndex s.out.length i = some j) :
    runLoopS bounds (i :: rest) s =
      runLoopS bounds rest
        ⟨s.var, s.out.set j (scMean (pySlice s.var (bounds i).1 (bounds i).2))⟩ := by
  show (match loopStep bounds s i with
        | .ok s1 => runLoopS bounds rest s1
        | .error e => .error e) = _
  rw [loopStep_of_some h]

theorem runLoopS_cons_none {bounds : ℤ → ℤ × ℤ} {s : SState} {i : ℤ}
    (rest : List ℤ) (h : pyIndex s.out.length i = none) :
    runLoopS bounds (i :: rest) s = .error .indexError := by
  show (match loopStep bounds s i with
        | .ok s1 => runLoopS bounds rest s1
        | .error e => .error e) = _
  rw [loopStep_of_none h]

theorem runLoopS_ok_of_valid (bounds : ℤ → ℤ × ℤ) (idxs : List ℤ) :
    ∀ s : SState, (∀ i ∈ idxs, pyIndex s.out.length i ≠ none) →
      ∃ s1, runLoopS bounds idxs s = .ok s1 ∧ s1.var = s.var ∧
        s1.out.length = s.out.length := by
  induction idxs with
  | nil => exact fun s _ => ⟨s, rfl, rfl, rfl⟩
  | cons i rest ih =>
    intro s h
    cases hp : pyIndex s.out.length i with
    | none => exact absurd hp (h i (List.mem_cons_self i rest))
    | some j =>
      rw [runLoopS_cons_some rest hp]
      obtain ⟨s1, h1, h2, h3⟩ := ih ⟨s.var, s.out.set j (scMean (pySlice s.var (bounds i).1
          (bounds i).2))⟩ (by
        intro i2 hi2
        simp only [List.length_set]
        exact h i2 (List.mem_cons_of_mem i hi2))
      refine ⟨s1, h1, h2, ?_⟩
      rw [h3]
      simp only [List.length_set]

theorem runLoopS_error_eq (bounds : ℤ → ℤ × ℤ) (idxs : List ℤ) :
    ∀ (s : SState) (e : SmoothError), runLoopS bounds idxs s = .error e →
      e = .indexError := by
  induction idxs with
  | nil =>
    intro s e h
    cases h
  | cons i rest ih =>
    intro s e h
    cases hp : pyIndex s.out.length i with
    | none =>
      rw [runLoopS_cons_none rest hp] at h
      injection h with h
      exact h.symm
    | some j =>
      rw [runLoopS_cons_some rest hp] at h
      exact ih _ e h

theorem runLoopS_error_of_bad (bounds : ℤ → ℤ × ℤ) (idxs : List ℤ) :
    ∀ s : SState, (∃ i ∈ idxs, pyIndex s.out.length i = none) →
      runLoopS bounds idxs s = .error .indexError := by
  induction idxs with
  | nil =>
    rintro s ⟨i, hi, _⟩
    cases hi
  | cons i rest ih =>
    rintro s ⟨i2, hi2, hpi2⟩
    cases hp : pyIndex s.out.length i with
    | none => exact runLoopS_cons_none rest hp
    | some j =>
      rw [runLoopS_cons_some rest hp]
      apply ih
      refine ⟨i2, ?_, ?_⟩
      · cases List.mem_cons.mp hi2 with
        | inl he =>
          rw [he, hp] at hpi2
          cases hpi2
        | inr hm => exact hm
      · show pyIndex (s.out.set j _).length i2 = none
        rw [List.length_set]
        exact hpi2

theorem runLoopS_get_untouched (bounds : ℤ → ℤ × ℤ) (idxs : List ℤ) :
    ∀ (s s1 : SState) (j : ℕ), runLoopS bounds idxs s = .ok s1 →
      (∀ i ∈ idxs, pyIndex s.out.length i ≠ some j) →
      s1.out[j]? = s.out[j]? := by
  induction idxs with
  | nil =>
    intro s s1 j hok _
    injection hok with hok
    rw [hok]
  | cons i rest ih =>
    intro s s1 j hok h
    cases hp : pyIndex s.out.length i with
    | none =>
      rw [runLoopS_cons_none rest hp] at hok
      cases hok
    | some j2 =>
      have hj2 : j2 ≠ j := by
        intro he
        exact h i (List.mem_cons_self i rest) (by rw [hp, he])
      rw [runLoopS_cons_some rest hp] at hok
      have h2 := ih _ s1 j hok (by
        intro i2 hi2
        show pyIndex (s.out.set j2 _).length i2 ≠ some j
        rw [List.length_set]
        exact h i2 (List.mem_cons_of_mem i hi2))
      rw [h2]
      exact List.getElem?_set_ne hj2

theorem runLoopS_get_written (bounds : ℤ → ℤ × ℤ) (idxs : List ℤ) :
    ∀ (s s1 : SState) (j : ℕ) (i0 : ℤ), idxs.Nodup →
      runLoopS bounds idxs s = .ok s1 → i0 ∈ idxs →
      pyIndex s.out.length i0 = some j →
      (∀ i ∈ idxs, pyIndex s.out.length i = some j → i = i0) →
      s1.out[j]? = some (scMean (pySlice s.var (bounds i0).1 (bounds i0).2)) := by
  induction idxs with
  | nil =>
    intro s s1 j i0 _ _ hmem _ _
    cases hmem
  | cons i rest ih =>
    intro s s1 j i0 hnd hok hmem hw huniq
    rw [List.nodup_cons] at hnd
    cases List.mem_cons.mp hmem with
    | inl he =>
      subst he
      rw [runLoopS_cons_some rest hw] at hok
      have huntouched : ∀ i2 ∈ rest,
          pyIndex ((⟨s.var, s.out.set j
            (scMean (pySlice s.var (bounds i0).1 (bounds i0).2))⟩ : SState).out.length) i2 ≠
            some j := by
        intro i2 hi2 hpi2
        show False
        apply hnd.1
        have he2 : i2 = i0 := by
          apply huniq i2 (List.mem_cons_of_mem i0 hi2)
          simp only [List.length_set] at hpi2
          exact hpi2
        rw [← he2]
        exact hi2
      have h2 := runLoopS_get_untouched bounds rest _ s1 j hok huntouched
      rw [h2]
      exact List.getElem?_set_self (pyIndex_lt hw)
    | inr hm =>
      have hne : i ≠ i0 := by
        intro he
        exact hnd.1 (he ▸ hm)
      cases hp : pyIndex s.out.length i with
      | none =>
        rw [runLoopS_cons_none rest hp] at hok
        cases hok
      | some j2 =>
        have hj2 : j2 ≠ j := by
          intro he
          exact hne (huniq i (List.mem_cons_self i rest) (by rw [hp, he]))
        rw [runLoopS_cons_some rest hp] at hok
        refine ih ⟨s.var, s.out.set j2 (scMean (pySlice s.var (bounds i).1 (bounds i).2))⟩
          s1 j i0 hnd.2 hok hm ?_ ?_
        · simp only [List.length_set]
          exact hw
        · intro i2 hi2 hpi2
          apply huniq i2 (List.mem_cons_of_mem i hi2)
          simp only [List.length_set] at hpi2
          exact hpi2

/-! ### Facts about smoothdataS -/

theorem pyIndex_natCast {N : ℕ} (j : ℕ) (hj : j < N) : pyIndex N (j : ℤ) = some j := by
  have h2 : ((j : ℤ)).toNat = j := by omega
  rw [pyIndex_eq_some (by omega) (by omega), h2]

theorem pyIndex_inj {N : ℕ} {i : ℤ} {j : ℕ} (h0 : 0 ≤ i) (h : pyIndex N i = some j) :
    i = (j : ℤ) :=
  ((pyIndex_some_iff h0).mp h).1

theorem halfRange_eq (NPoints : ℤ) : halfRange NPoints = NPoints / 2 := by
  unfold halfRange
  exact Int.fdiv_eq_ediv _ (by omega)

theorem smoothdataS_none (var : List Row) (NPoints : ℤ) :
    smoothdataS var none NPoints = .error .missingDim := rfl

theorem smoothdataS_small (var : List Row) (d : String) {NPoints : ℤ} (h : NPoints < 3) :
    smoothdataS var (some d) NPoints = .error .windowTooSmall := by
  simp only [smoothdataS, if_pos h]

theorem smoothdataS_eq_of_runs (var : List Row) (d : String) {NPoints : ℤ}
    (h3 : ¬ NPoints < 3) {s1 s2 s3 : SState}
    (h1 : runLoopS (startBounds (halfRange NPoints)) (intRange 0 (halfRange NPoints))
      ⟨var, var⟩ = .ok s1)
    (h2 : runLoopS (mainBounds (halfRange NPoints))
      (intRange (halfRange NPoints) ((var.length : ℤ) - halfRange NPoints)) s1 = .ok s2)
    (h3e : runLoopS (endBounds (var.length : ℤ) (halfRange NPoints))
      (intRange ((var.length : ℤ) - halfRange NPoints) (var.length : ℤ)) s2 = .ok s3) :
    smoothdataS var (some d) NPoints = .ok s3 := by
  simp only [smoothdataS, if_neg h3, h1, h2, h3e]

theorem smoothdataS_error_inv (var : List Row) (d : String) {NPoints : ℤ}
    (h3 : 3 ≤ NPoints) (e : SmoothError)
    (he : smoothdataS var (some d) NPoints = .error e) : e = .indexError := by
  simp only [smoothdataS, if_neg (by omega : ¬ NPoints < 3)] at he
  cases h1 : runLoopS (startBounds (halfRange NPoints)) (intRange 0 (halfRange NPoints))
      ⟨var, var⟩ with
  | error e1 =>
    rw [h1] at he
    simp only [] at he
    injection he with he
    rw [← he]
    exact runLoopS_error_eq _ _ _ _ h1
  | ok s1 =>
    rw [h1] at he
    simp only [] at he
    cases h2 : runLoopS (mainBounds (halfRange NPoints))
        (intRange (halfRange NPoints) ((var.length : ℤ) - halfRange NPoints)) s1 with
    | error e2 =>
      rw [h2] at he
      simp only [] at he
      injection he with he
      rw [← he]
      exact runLoopS_error_eq _ _ _ _ h2
    | ok s2 =>
      rw [h2] at he
      simp only [] at he
      exact runLoopS_error_eq _ _ _ _ he

/-- The workhorse: whenever `dim` is given, `NPoints >= 3` and
`hr = NPoints//2 <= N`, the call succeeds, the input component is
untouched, the output has the input's length, and the value at each
index `j` is the mean over the window of the LAST loop that writes `j`
(`lastBounds`), reflecting that the loops run in the order
start, main, end, with later writes overwriting earlier ones. -/
theorem smoothdataS_char (var : List Row) (d : String) (NPoints : ℤ)
    (h3 : 3 ≤ NPoints) (hhr : halfRange NPoints ≤ (var.length : ℤ)) :
    ∃ s, smoothdataS var (some d) NPoints = .ok s ∧ s.var = var ∧
      s.out.length = var.length ∧
      ∀ j : ℕ, j < var.length →
        s.out[j]? = some (scMean (pySlice var
          (lastBounds (var.length : ℤ) (halfRange NPoints) (j : ℤ)).1
          (lastBounds (var.length : ℤ) (halfRange NPoints) (j : ℤ)).2)) := by
  have hfd := halfRange_eq NPoints
  have hr1 : 1 ≤ halfRange NPoints := by omega
  obtain ⟨s1, hok1, hvar1, hlen1⟩ := runLoopS_ok_of_valid (startBounds (halfRange NPoints))
    (intRange 0 (halfRange NPoints)) ⟨var, var⟩ (by
      intro i hi
      rw [mem_intRange] at hi
      show pyIndex var.length i ≠ none
      rw [pyIndex_eq_some hi.1 (by omega)]
      exact Option.some_ne_none _)
  have hvar1a : s1.var = var := hvar1
  have hlen1a : s1.out.length = var.length := hlen1
  obtain ⟨s2, hok2, hvar2, hlen2⟩ := runLoopS_ok_of_valid (mainBounds (halfRange NPoints))
    (intRange (halfRange NPoints) ((var.length : ℤ) - halfRange NPoints)) s1 (by
      intro i hi
      rw [mem_intRange] at hi
      rw [hlen1a, pyIndex_eq_some (by omega) (by omega)]
      exact Option.some_ne_none _)
  have hvar2a : s2.var = var := hvar2.trans hvar1a
  have hlen2a : s2.out.length = var.length := hlen2.trans hlen1a
  obtain ⟨s3, hok3, hvar3, hlen3⟩ := runLoopS_ok_of_valid
    (endBounds (var.length : ℤ) (halfRange NPoints))
    (intRange ((var.length : ℤ) - halfRange NPoints) (var.length : ℤ)) s2 (by
      intro i hi
      rw [mem_intRange] at hi
      rw [hlen2a, pyIndex_eq_some (by omega) (by omega)]
      exact Option.some_ne_none _)
  have hvar3a : s3.var = var := hvar3.trans hvar2a
  have hlen3a : s3.out.length = var.length := hlen3.trans hlen2a
  refine ⟨s3, smoothdataS_eq_of_runs var d (by omega) hok1 hok2 hok3, hvar3a, hlen3a, ?_⟩
  intro j hj
  rcases le_or_lt ((var.length : ℤ) - halfRange NPoints) (j : ℤ) with hA | hA
  · -- the end loop writes j last
    have hw : pyIndex s2.out.length (j : ℤ) = some j := by
      rw [hlen2a]
      exact pyIndex_natCast j hj
    have hval := runLoopS_get_written (endBounds (var.length : ℤ) (halfRange NPoints))
      (intRange ((var.length : ℤ) - halfRange NPoints) (var.length : ℤ)) s2 s3 j (j : ℤ)
      (intRange_nodup _ _) hok3 (mem_intRange.mpr ⟨hA, by omega⟩) hw (by
        intro i hi hpi
        rw [mem_intRange] at hi
        exact pyIndex_inj (by omega) hpi)
    rw [hvar2a] at hval
    rw [hval]
    unfold lastBounds
    rw [if_pos hA]
  · rcases le_or_lt (halfRange NPoints) (j : ℤ) with hB | hB
    · -- the main loop writes j last; the end loop does not touch j
      have huntouched := runLoopS_get_untouched
        (endBounds (var.length : ℤ) (halfRange NPoints))
        (intRange ((var.length : ℤ) - halfRange NPoints) (var.length : ℤ)) s2 s3 j hok3 (by
          intro i hi hpi
          rw [mem_intRange] at hi
          have he := pyIndex_inj (by omega) hpi
          omega)
      have hw : pyIndex s1.out.length (j : ℤ) = some j := by
        rw [hlen1a]
        exact pyIndex_natCast j hj
      have hval := runLoopS_get_written (mainBounds (halfRange NPoints))
        (intRange (halfRange NPoints) ((var.length : ℤ) - halfRange NPoints)) s1 s2 j (j : ℤ)
        (intRange_nodup _ _) hok2 (mem_intRange.mpr ⟨hB, hA⟩) hw (by
          intro i hi hpi
          rw [mem_intRange] at hi
          exact pyIndex_inj (by omega) hpi)
      rw [hvar1a] at hval
      rw [huntouched, hval]
      unfold lastBounds
      rw [if_neg (by omega), if_pos hB]
    · -- the start loop writes j; the other two loops do not touch j
      have huntouched3 := runLoopS_get_untouched
        (endBounds (var.length : ℤ) (halfRange NPoints))
        (intRange ((var.length : ℤ) - halfRange NPoints) (var.length : ℤ)) s2 s3 j hok3 (by
          intro i hi hpi
          rw [mem_intRange] at hi
          have he := pyIndex_inj (by omega) hpi
          omega)
      have huntouched2 := runLoopS_get_untouched (mainBounds (halfRange NPoints))
        (intRange (halfRange NPoints) ((var.length : ℤ) - halfRange NPoints)) s1 s2 j hok2 (by
          intro i hi hpi
          rw [mem_intRange] at hi
          have he := pyIndex_inj (by omega) hpi
          omega)
      have hw : pyIndex ((⟨var, var⟩ : SState)).out.length (j : ℤ) = some j :=
        pyIndex_natCast j hj
      have hval := runLoopS_get_written (startBounds (halfRange NPoints))
        (intRange 0 (halfRange NPoints)) ⟨var, var⟩ s1 j (j : ℤ)
        (intRange_nodup _ _) hok1 (mem_intRange.mpr ⟨by omega, hB⟩) hw (by
          intro i hi hpi
          rw [mem_intRange] at hi
          exact pyIndex_inj (by omega) hpi)
      rw [huntouched3, huntouched2, hval]
      unfold lastBounds
      rw [if_neg (by omega), if_neg (by omega)]

/-! ### Shape and mean arithmetic -/

theorem sumRows_length (m : ℕ) : ∀ rows : List Row, rows ≠ [] →
    (∀ r ∈ rows, r.length = m) → (sumRows rows).length = m := by
  intro rows
  induction rows with
  | nil => exact fun hne _ => absurd rfl hne
  | cons r rest ih =>
    intro _ hm
    cases rest with
    | nil => exact hm r (List.mem_cons_self r [])
    | cons s t =>
      show (addRow r (sumRows (s :: t))).length = m
      unfold addRow
      rw [List.length_zipWith]
      have h1 : r.length = m := hm r (List.mem_cons_self _ _)
      have h2 : (sumRows (s :: t)).length = m :=
        ih (List.cons_ne_nil s t) (fun r2 hr2 => hm r2 (List.mem_cons_of_mem _ hr2))
      rw [h1, h2]
      exact min_self m

theorem scMean_length (rows : List Row) (m : ℕ) (hne : rows ≠ [])
    (hm : ∀ r ∈ rows, r.length = m) : (scMean rows).length = m := by
  unfold scMean
  rw [List.length_map]
  exact sumRows_length m rows hne hm

theorem addRow_map_mul (c : ℚ) : ∀ r : Row,
    addRow r (r.map (fun x => c * x)) = r.map (fun x => (c + 1) * x) := by
  intro r
  induction r with
  | nil => rfl
  | cons x xs ih =>
    show (x + c * x) :: addRow xs (xs.map (fun y => c * y)) = _
    rw [ih, show x + c * x = (c + 1) * x from by ring]
    rfl

theorem sumRows_replicate (r : Row) : ∀ k : ℕ,
    sumRows (List.replicate (k + 1) r) = r.map (fun x => ((k + 1 : ℕ) : ℚ) * x) := by
  intro k
  induction k with
  | zero =>
    show r = r.map (fun x => ((1 : ℕ) : ℚ) * x)
    refine (List.map_id'' (fun x => ?_) r).symm
    rw [Nat.cast_one, one_mul]
  | succ n ih =>
    show addRow r (sumRows (List.replicate (n + 1) r)) =
      r.map (fun x => ((n + 1 + 1 : ℕ) : ℚ) * x)
    rw [ih, addRow_map_mul (((n + 1 : ℕ) : ℚ)) r]
    simp only [Nat.cast_add, Nat.cast_one]

theorem scMean_replicate (r : Row) (k : ℕ) :
    scMean (List.replicate (k + 1) r) = r := by
  unfold scMean
  simp only [sumRows_replicate, List.length_replicate, List.map_map]
  refine List.map_id'' (fun x => ?_) r
  show ((k + 1 : ℕ) : ℚ) * x / ((k + 1 : ℕ) : ℚ) = x
  rw [mul_div_cancel_left₀]
  exact Nat.cast_ne_zero.mpr (by omega)

theorem scMean_of_all_eq {rows : List Row} {r : Row} (hne : 0 < rows.length)
    (hconst : ∀ r2 ∈ rows, r2 = r) : scMean rows = r := by
  have he : rows = List.replicate rows.length r := List.eq_replicate_of_mem hconst
  have hk : rows.length = (rows.length - 1) + 1 := by omega
  rw [he, hk]
  exact scMean_replicate r _

theorem lastBounds_slice_pos (xs : List Row) (hr : ℤ) (j : ℕ)
    (h1 : 1 ≤ hr) (hhr : hr ≤ (xs.length : ℤ)) (hj : j < xs.length) :
    0 < (pySlice xs (lastBounds (xs.length : ℤ) hr (j : ℤ)).1
      (lastBounds (xs.length : ℤ) hr (j : ℤ)).2).length := by
  unfold lastBounds
  split_ifs with hA hB
  · show 0 < (pySlice xs ((j : ℤ) - hr) (xs.length : ℤ)).length
    exact pySlice_pos_end xs _ (by omega) (by omega)
  · show 0 < (pySlice xs ((j : ℤ) - hr) ((j : ℤ) + hr + 1)).length
    exact pySlice_pos_of_nonneg xs _ _ (by omega) (by omega) (by omega)
  · show 0 < (pySlice xs 0 ((j : ℤ) + hr + 1)).length
    exact pySlice_pos_of_nonneg xs _ _ (by omega) (by omega) (by omega)

theorem smoothdataS_ok_NPoints {var : List Row} {d : String} {NPoints : ℤ} {s : SState}
    (h : smoothdataS var (some d) NPoints = .ok s) : 3 ≤ NPoints := by
  by_contra hlt
  rw [smoothdataS_small var d (by omega)] at h
  cases h

theorem smoothdataS_ok_hr {var : List Row} {d : String} {NPoints : ℤ} {s : SState}
    (h : smoothdataS var (some d) NPoints = .ok s) :
    halfRange NPoints ≤ (var.length : ℤ) := by
  have h3 := smoothdataS_ok_NPoints h
  by_contra hgt
  push_neg at hgt
  have hbad : runLoopS (startBounds (halfRange NPoints)) (intRange 0 (halfRange NPoints))
      ⟨var, var⟩ = .error .indexError := by
    apply runLoopS_error_of_bad
    refine ⟨(var.length : ℤ), ?_, ?_⟩
    · exact mem_intRange.mpr ⟨by omega, hgt⟩
    · show pyIndex var.length (var.length : ℤ) = none
      exact pyIndex_eq_none (by omega) (by omega)
  simp only [smoothdataS, if_neg (by omega : ¬ NPoints < 3), hbad] at h
  cases h

/-! ### Claim theorems -/

/-- C1: for every valid call (`dim` given, `3 ≤ NPoints ≤ N`) and every
interior index `j` with `h ≤ j < N - h` (`h = NPoints//2`), the output
value at `j` is the arithmetic mean of the full window
`variable[j-h : j+h+1]` of width `2h+1` centred on `j`. -/
theorem smoothdata_interior_window (var : List Row) (d : String) (NPoints : ℤ) (j : ℕ)
    (h3 : 3 ≤ NPoints) (hN : NPoints ≤ (var.length : ℤ))
    (hj1 : halfRange NPoints ≤ (j : ℤ))
    (hj2 : (j : ℤ) < (var.length : ℤ) - halfRange NPoints) :
    ∃ s, smoothdataS var (some d) NPoints = .ok s ∧
      s.out[j]? = some (scMean (pySlice var
        ((j : ℤ) - halfRange NPoints) ((j : ℤ) + halfRange NPoints + 1))) := by
  have hfd := halfRange_eq NPoints
  obtain ⟨s, hok, hv, hlen, hget⟩ := smoothdataS_char var d NPoints h3 (by omega)
  refine ⟨s, hok, ?_⟩
  rw [hget j (by omega)]
  unfold lastBounds
  rw [if_neg (by omega), if_pos hj1]
  rfl

/-- Witness for C1: `var = [[1],[2],[3],[4],[5]]`, `NPoints = 3`, `j = 2`. -/
theorem smoothdata_interior_window_witness :
    ∃ s, smoothdataS [[1],[2],[3],[4],[5]] (some "x") 3 = .ok s ∧
      s.out[2]? = some (scMean (pySlice [[1],[2],[3],[4],[5]]
        (((2 : ℕ) : ℤ) - halfRange 3) (((2 : ℕ) : ℤ) + halfRange 3 + 1))) :=
  smoothdata_interior_window [[1],[2],[3],[4],[5]] "x" 3 2 (by decide) (by decide)
    (by decide) (by decide)

/-- C2: for every valid call and every start index `j < h`, the output
value at `j` is the mean of the truncated window `variable[0 : j+h+1]`;
in particular at `j = 0` it is the mean of `variable[0 : h+1]`. -/
theorem smoothdata_start_window (var : List Row) (d : String) (NPoints : ℤ) (j : ℕ)
    (h3 : 3 ≤ NPoints) (hN : NPoints ≤ (var.length : ℤ))
    (hj : (j : ℤ) < halfRange NPoints) :
    ∃ s, smoothdataS var (some d) NPoints = .ok s ∧
      s.out[j]? = some (scMean (pySlice var 0 ((j : ℤ) + halfRange NPoints + 1))) := by
  have hfd := halfRange_eq NPoints
  obtain ⟨s, hok, hv, hlen, hget⟩ := smoothdataS_char var d NPoints h3 (by omega)
  refine ⟨s, hok, ?_⟩
  rw [hget j (by omega)]
  unfold lastBounds
  rw [if_neg (by omega), if_neg (by omega)]
  rfl

/-- Witness for C2: `var = [[1],[2],[3],[4],[5]]`, `NPoints = 3`, `j = 0`. -/
theorem smoothdata_start_window_witness :
    ∃ s, smoothdataS [[1],[2],[3],[4],[5]] (some "x") 3 = .ok s ∧
      s.out[0]? = some (scMean (pySlice [[1],[2],[3],[4],[5]] 0
        (((0 : ℕ) : ℤ) + halfRange 3 + 1))) :=
  smoothdata_start_window [[1],[2],[3],[4],[5]] "x" 3 0 (by decide) (by decide) (by decide)

/-- C3: for every valid call and every end index `N - h ≤ j < N`, the
output value at `j` is the mean of the truncated window
`variable[j-h : N]`; in particular at `j = N-1` it is the mean of
`variable[N-1-h : N]`. -/
theorem smoothdata_end_window (var : List Row) (d : String) (NPoints : ℤ) (j : ℕ)
    (h3 : 3 ≤ NPoints) (hN : NPoints ≤ (var.length : ℤ))
    (hj1 : (var.length : ℤ) - halfRange NPoints ≤ (j : ℤ)) (hj2 : j < var.length) :
    ∃ s, smoothdataS var (some d) NPoints = .ok s ∧
      s.out[j]? = some (scMean (pySlice var ((j : ℤ) - halfRange NPoints)
        (var.length : ℤ))) := by
  have hfd := halfRange_eq NPoints
  obtain ⟨s, hok, hv, hlen, hget⟩ := smoothdataS_char var d NPoints h3 (by omega)
  refine ⟨s, hok, ?_⟩
  rw [hget j hj2]
  unfold lastBounds
  rw [if_pos hj1]
  rfl

/-- Witness for C3: `var = [[1],[2],[3],[4],[5]]`, `NPoints = 3`, `j = 4`. -/
theorem smoothdata_end_window_witness :
    ∃ s, smoothdataS [[1],[2],[3],[4],[5]] (some "x") 3 = .ok s ∧
      s.out[4]? = some (scMean (pySlice [[1],[2],[3],[4],[5]]
        (((4 : ℕ) : ℤ) - halfRange 3) (([[1],[2],[3],[4],[5]] : List Row).length : ℤ))) :=
  smoothdata_end_window [[1],[2],[3],[4],[5]] "x" 3 4 (by decide) (by decide) (by decide)
    (by decide)

/-- C4 counterexample: `N = 2 <= windowSize = 6` satisfies the claim's
premise, but the call does not execute correctly: `h = 3 > N`, so the
start loop `range(0, 3)` writes index 2, which is out of range for a
length-2 variable, and the call raises `IndexError`. -/
theorem smoothdata_smallN_counterexample :
    (([[1], [2]] : List Row).length : ℤ) ≤ 6 ∧
      smoothdataS [[1], [2]] (some "x") 6 = .error .indexError := by
  constructor
  · decide
  · rfl

/-- C4 (amended): when `N ≤ NPoints` and additionally `h = NPoints//2 ≤ N`,
the call executes correctly: it returns, every index along `dim` is
written by at least one of the three loops (run in the order start, main,
end), and the final value at each index is the mean over the window of
the LAST of the three loops that writes it (`lastBounds`), i.e. later
writes prevail where the ranges overlap. -/
theorem smoothdata_small_input (var : List Row) (d : String) (NPoints : ℤ)
    (h3 : 3 ≤ NPoints) (hNle : (var.length : ℤ) ≤ NPoints)
    (hhr : halfRange NPoints ≤ (var.length : ℤ)) :
    ∃ s, smoothdataS var (some d) NPoints = .ok s ∧ s.out.length = var.length ∧
      (∀ j : ℕ, j < var.length → ∃ i : ℤ,
        (i ∈ intRange 0 (halfRange NPoints) ∨
         i ∈ intRange (halfRange NPoints) ((var.length : ℤ) - halfRange NPoints) ∨
         i ∈ intRange ((var.length : ℤ) - halfRange NPoints) (var.length : ℤ)) ∧
        pyIndex var.length i = some j) ∧
      ∀ j : ℕ, j < var.length →
        s.out[j]? = some (scMean (pySlice var
          (lastBounds (var.length : ℤ) (halfRange NPoints) (j : ℤ)).1
          (lastBounds (var.length : ℤ) (halfRange NPoints) (j : ℤ)).2)) := by
  obtain ⟨s, hok, hv, hlen, hget⟩ := smoothdataS_char var d NPoints h3 hhr
  refine ⟨s, hok, hlen, ?_, hget⟩
  intro j hj
  refine ⟨(j : ℤ), ?_, pyIndex_natCast j hj⟩
  rcases le_or_lt ((var.length : ℤ) - halfRange NPoints) (j : ℤ) with hA | hA
  · exact Or.inr (Or.inr (mem_intRange.mpr ⟨hA, by omega⟩))
  · rcases le_or_lt (halfRange NPoints) (j : ℤ) with hB | hB
    · exact Or.inr (Or.inl (mem_intRange.mpr ⟨hB, hA⟩))
    · exact Or.inl (mem_intRange.mpr ⟨by omega, hB⟩)

/-- Witness for the amended C4: `var = [[1],[2],[3]]`, `NPoints = 5`
(`N = 3 ≤ 5`, `h = 2 ≤ 3`; the start and end ranges overlap). -/
theorem smoothdata_small_input_witness :
    ∃ s, smoothdataS [[1], [2], [3]] (some "x") 5 = .ok s ∧
      s.out.length = ([[1], [2], [3]] : List Row).length ∧
      (∀ j : ℕ, j < ([[1], [2], [3]] : List Row).length → ∃ i : ℤ,
        (i ∈ intRange 0 (halfRange 5) ∨
         i ∈ intRange (halfRange 5)
           ((([[1], [2], [3]] : List Row).length : ℤ) - halfRange 5) ∨
         i ∈ intRange ((([[1], [2], [3]] : List Row).length : ℤ) - halfRange 5)
           (([[1], [2], [3]] : List Row).length : ℤ)) ∧
        pyIndex ([[1], [2], [3]] : List Row).length i = some j) ∧
      ∀ j : ℕ, j < ([[1], [2], [3]] : List Row).length →
        s.out[j]? = some (scMean (pySlice [[1], [2], [3]]
          (lastBounds (([[1], [2], [3]] : List Row).length : ℤ) (halfRange 5) (j : ℤ)).1
          (lastBounds (([[1], [2], [3]] : List Row).length : ℤ) (halfRange 5) (j : ℤ)).2)) :=
  smoothdata_small_input [[1], [2], [3]] "x" 5 (by decide) (by decide) (by decide)

/-- C5 counterexample: `NPoints = 3` with a dim given does not always
succeed: on an empty variable the start loop writes index 0, which is out
of range, and the call raises `IndexError` (not a configuration error). -/
theorem smoothdata_np3_empty_counterexample :
    smoothdataS [] (some "x") 3 = .error .indexError := by
  rfl

/-- C5 (amended): the call fails with a configuration error exactly when
a precondition is violated: `dim` unset gives the missing-dimension error
(checked first, before any computation), `NPoints < 3` with a dim gives
the window-too-small error, with `3 ≤ NPoints` neither configuration
error is possible, and `NPoints = 3` with a dim given succeeds for every
variable that is nonempty along `dim`.  No retry occurs: the checks are
the first two statements of the function. -/
theorem smoothdata_error_conditions :
    (∀ (var : List Row) (NPoints : ℤ),
      smoothdataS var none NPoints = .error .missingDim) ∧
    (∀ (var : List Row) (d : String) (NPoints : ℤ), NPoints < 3 →
      smoothdataS var (some d) NPoints = .error .windowTooSmall) ∧
    (∀ (var : List Row) (d : String) (NPoints : ℤ), 3 ≤ NPoints →
      smoothdataS var (some d) NPoints ≠ .error .missingDim ∧
      smoothdataS var (some d) NPoints ≠ .error .windowTooSmall) ∧
    (∀ (var : List Row) (d : String), 1 ≤ var.length →
      ∃ s, smoothdataS var (some d) 3 = .ok s) := by
  refine ⟨fun var NPoints => rfl, fun var d NPoints h => smoothdataS_small var d h, ?_, ?_⟩
  · intro var d NPoints h3
    constructor
    · intro he
      cases smoothdataS_error_inv var d h3 _ he
    · intro he
      cases smoothdataS_error_inv var d h3 _ he
  · intro var d hlen
    have hfd := halfRange_eq 3
    obtain ⟨s, hok, _, _, _⟩ := smoothdataS_char var d 3 (by omega) (by omega)
    exact ⟨s, hok⟩

/-- Witness for the amended C5: `dim = none` errors, `NPoints = 2` and
`NPoints = 1` error, `NPoints = 3` succeeds on a nonempty variable. -/
theorem smoothdata_error_conditions_witness :
    smoothdataS [[1]] none 3 = .error .missingDim ∧
    smoothdataS [[1]] (some "x") 2 = .error .windowTooSmall ∧
    smoothdataS [[1]] (some "x") 1 = .error .windowTooSmall ∧
    ∃ s, smoothdataS [[1]] (some "x") 3 = .ok s :=
  ⟨smoothdata_error_conditions.1 [[1]] 3,
   smoothdata_error_conditions.2.1 [[1]] "x" 2 (by decide),
   smoothdata_error_conditions.2.1 [[1]] "x" 1 (by decide),
   smoothdata_error_conditions.2.2.2 [[1]] "x" (by decide)⟩

/-- C6: for every call that returns, the input variable is unchanged:
the state's `var` component, which every loop iteration reads and never
writes, is still the input list (the returned tensor is built in the
separate `out` component, initialised from a copy). -/
theorem smoothdata_no_mutation (var : List Row) (dim : Option String) (NPoints : ℤ)
    (s : SState) (hok : smoothdataS var dim NPoints = .ok s) : s.var = var := by
  cases dim with
  | none =>
    rw [smoothdataS_none] at hok
    cases hok
  | some d =>
    have h3 := smoothdataS_ok_NPoints hok
    have hhr := smoothdataS_ok_hr hok
    obtain ⟨s2, hok2, hv, _, _⟩ := smoothdataS_char var d NPoints h3 hhr
    rw [hok2] at hok
    injection hok with he
    rw [← he]
    exact hv

/-- Witness for C6 at `var = [[1],[2],[3]]`, `NPoints = 3`. -/
theorem smoothdata_no_mutation_witness :
    ∃ s, smoothdataS [[1], [2], [3]] (some "x") 3 = .ok s ∧ s.var = [[1], [2], [3]] := by
  obtain ⟨s, hok, _, _, _⟩ := smoothdataS_char [[1], [2], [3]] "x" 3 (by omega) (by decide)
  exact ⟨s, hok, smoothdata_no_mutation [[1], [2], [3]] (some "x") 3 s hok⟩

/-- C7: for every call that returns, the output has the input's shape on
every dimension: the same length along `dim`, and every output row (the
other dimensions) has the input rows' common length `m`. -/
theorem smoothdata_shape_preserved (var : List Row) (dim : Option String) (NPoints : ℤ)
    (s : SState) (m : ℕ) (hm : ∀ r ∈ var, r.length = m)
    (hok : smoothdataS var dim NPoints = .ok s) :
    s.out.length = var.length ∧ ∀ r ∈ s.out, r.length = m := by
  cases dim with
  | none =>
    rw [smoothdataS_none] at hok
    cases hok
  | some d =>
    have h3 := smoothdataS_ok_NPoints hok
    have hhr := smoothdataS_ok_hr hok
    have hfd := halfRange_eq NPoints
    obtain ⟨s2, hok2, hv, hlen, hget⟩ := smoothdataS_char var d NPoints h3 hhr
    rw [hok2] at hok
    injection hok with he
    subst he
    refine ⟨hlen, ?_⟩
    intro r hr
    obtain ⟨j, hj⟩ := List.mem_iff_getElem?.mp hr
    obtain ⟨hlt, _⟩ := List.getElem?_eq_some_iff.mp hj
    have hjlt : j < var.length := hlen ▸ hlt
    have hg := hget j hjlt
    rw [hj] at hg
    injection hg with hg2
    rw [hg2]
    apply scMean_length _ m
    · have hpos := lastBounds_slice_pos var (halfRange NPoints) j (by omega) hhr hjlt
      exact List.length_pos.mp hpos
    · intro r2 hr2
      exact hm r2 (pySlice_subset hr2)

/-- Witness for C7 at `var = [[1],[2],[3]]` (rows of length 1), `NPoints = 3`. -/
theorem smoothdata_shape_preserved_witness :
    ∃ s, smoothdataS [[1], [2], [3]] (some "x") 3 = .ok s ∧
      s.out.length = ([[1], [2], [3]] : List Row).length ∧
      ∀ r ∈ s.out, r.length = 1 := by
  obtain ⟨s, hok, _, _, _⟩ := smoothdataS_char [[1], [2], [3]] "x" 3 (by omega) (by decide)
  obtain ⟨h1, h2⟩ := smoothdata_shape_preserved [[1], [2], [3]] (some "x") 3 s 1
    (by decide) hok
  exact ⟨s, hok, h1, h2⟩

/-- C8: for every even `NPoints ≥ 4` no window-size adjustment happens:
the half-range used by all three loops is exactly `NPoints // 2` computed
from the value as given (`NPoints` is not incremented to the next odd
value), and the call runs with exactly that half-range: each output
window is the one determined by `NPoints / 2`. -/
theorem smoothdata_even_no_adjustment (var : List Row) (d : String) (NPoints : ℤ)
    (heven : NPoints % 2 = 0) (h4 : 4 ≤ NPoints)
    (hhr : NPoints / 2 ≤ (var.length : ℤ)) :
    halfRange NPoints = NPoints / 2 ∧
    ∃ s, smoothdataS var (some d) NPoints = .ok s ∧
      ∀ j : ℕ, j < var.length →
        s.out[j]? = some (scMean (pySlice var
          (lastBounds (var.length : ℤ) (NPoints / 2) (j : ℤ)).1
          (lastBounds (var.length : ℤ) (NPoints / 2) (j : ℤ)).2)) := by
  have hfd := halfRange_eq NPoints
  refine ⟨hfd, ?_⟩
  obtain ⟨s, hok, _, _, hget⟩ := smoothdataS_char var d NPoints (by omega) (by omega)
  refine ⟨s, hok, ?_⟩
  intro j hj
  rw [hget j hj, hfd]

/-- Witness for C8 at `var = [[1],[2],[3],[4]]`, `NPoints = 4`. -/
theorem smoothdata_even_no_adjustment_witness :
    halfRange 4 = 4 / 2 ∧
    ∃ s, smoothdataS [[1], [2], [3], [4]] (some "x") 4 = .ok s ∧
      ∀ j : ℕ, j < ([[1], [2], [3], [4]] : List Row).length →
        s.out[j]? = some (scMean (pySlice [[1], [2], [3], [4]]
          (lastBounds (([[1], [2], [3], [4]] : List Row).length : ℤ) (4 / 2) (j : ℤ)).1
          (lastBounds (([[1], [2], [3], [4]] : List Row).length : ℤ) (4 / 2) (j : ℤ)).2)) :=
  smoothdata_even_no_adjustment [[1], [2], [3], [4]] "x" 4 (by decide) (by decide)
    (by decide)

/-- C9 counterexample: the constant sequence `[[0]]` has length `N = 1 ≥ 1`
and `NPoints = 5 ≥ 3` is valid per the claim, yet the call does not
return the constant: the start loop `range(0, 2)` writes index 1, which
is out of range for length 1, and the call raises `IndexError`. -/
theorem smoothdata_constant_counterexample :
    smoothdataS [[0]] (some "x") 5 = .error .indexError := by
  rfl

/-- C9 (amended): for every constant input (all rows equal) of length
`N ≥ 1` and every `NPoints ≥ 3` with additionally `NPoints//2 ≤ N`, the
call returns that same constant at every index along `dim`. -/
theorem smoothdata_constant_fixed_point (var : List Row) (r : Row) (d : String)
    (NPoints : ℤ) (hconst : ∀ r2 ∈ var, r2 = r) (hlen : 1 ≤ var.length)
    (h3 : 3 ≤ NPoints) (hhr : halfRange NPoints ≤ (var.length : ℤ)) :
    ∃ s, smoothdataS var (some d) NPoints = .ok s ∧ s.out.length = var.length ∧
      ∀ j : ℕ, j < var.length → s.out[j]? = some r := by
  have hfd := halfRange_eq NPoints
  obtain ⟨s, hok, _, hlen2, hget⟩ := smoothdataS_char var d NPoints h3 hhr
  refine ⟨s, hok, hlen2, ?_⟩
  intro j hj
  rw [hget j hj]
  congr 1
  apply scMean_of_all_eq
  · exact lastBounds_slice_pos var (halfRange NPoints) j (by omega) hhr hj
  · intro r2 hr2
    exact hconst r2 (pySlice_subset hr2)

/-- Witness for the amended C9: `var = [[7],[7],[7]]`, `NPoints = 3`. -/
theorem smoothdata_constant_fixed_point_witness :
    ∃ s, smoothdataS [[7], [7], [7]] (some "x") 3 = .ok s ∧
      s.out.length = ([[7], [7], [7]] : List Row).length ∧
      ∀ j : ℕ, j < ([[7], [7], [7]] : List Row).length → s.out[j]? = some [7] :=
  smoothdata_constant_fixed_point [[7], [7], [7]] [7] "x" 3 (by simp) (by decide)
    (by decide) (by decide)

/-- C10: (a) when `NPoints ≤ N`, every slice taken by the three loops has
in-range half-open bounds `0 ≤ lo < hi ≤ N`; (b) this precondition is
necessary: when `N < 2h` (`h = NPoints//2`), every index `i` iterated by
the end loop with `i < h` produces the negative slice start `i - h < 0`,
and at least one such index exists. -/
theorem smoothdata_slice_bounds (var : List Row) (NPoints : ℤ) (h3 : 3 ≤ NPoints) :
    (NPoints ≤ (var.length : ℤ) →
      (∀ i ∈ intRange 0 (halfRange NPoints),
        0 ≤ (startBounds (halfRange NPoints) i).1 ∧
        (startBounds (halfRange NPoints) i).1 < (startBounds (halfRange NPoints) i).2 ∧
        (startBounds (halfRange NPoints) i).2 ≤ (var.length : ℤ)) ∧
      (∀ i ∈ intRange (halfRange NPoints) ((var.length : ℤ) - halfRange NPoints),
        0 ≤ (mainBounds (halfRange NPoints) i).1 ∧
        (mainBounds (halfRange NPoints) i).1 < (mainBounds (halfRange NPoints) i).2 ∧
        (mainBounds (halfRange NPoints) i).2 ≤ (var.length : ℤ)) ∧
      (∀ i ∈ intRange ((var.length : ℤ) - halfRange NPoints) (var.length : ℤ),
        0 ≤ (endBounds (var.length : ℤ) (halfRange NPoints) i).1 ∧
        (endBounds (var.length : ℤ) (halfRange NPoints) i).1 <
          (endBounds (var.length : ℤ) (halfRange NPoints) i).2 ∧
        (endBounds (var.length : ℤ) (halfRange NPoints) i).2 ≤ (var.length : ℤ))) ∧
    ((var.length : ℤ) < 2 * halfRange NPoints →
      (∀ i ∈ intRange ((var.length : ℤ) - halfRange NPoints) (var.length : ℤ),
        i < halfRange NPoints →
        (endBounds (var.length : ℤ) (halfRange NPoints) i).1 < 0) ∧
      ∃ i ∈ intRange ((var.length : ℤ) - halfRange NPoints) (var.length : ℤ),
        (endBounds (var.length : ℤ) (halfRange NPoints) i).1 < 0) := by
  have hfd := halfRange_eq NPoints
  constructor
  · intro hN
    refine ⟨?_, ?_, ?_⟩
    · intro i hi
      rw [mem_intRange] at hi
      simp only [startBounds]
      refine ⟨by omega, by omega, by omega⟩
    · intro i hi
      rw [mem_intRange] at hi
      simp only [mainBounds]
      refine ⟨by omega, by omega, by omega⟩
    · intro i hi
      rw [mem_intRange] at hi
      simp only [endBounds]
      refine ⟨by omega, by omega, by omega⟩
  · intro hsmall
    constructor
    · intro i hi hih
      rw [mem_intRange] at hi
      simp only [endBounds]
      omega
    · refine ⟨(var.length : ℤ) - halfRange NPoints, ?_, ?_⟩
      · exact mem_intRange.mpr ⟨le_refl _, by omega⟩
      · simp only [endBounds]
        omega

/-- Witness for C10 at `var = [[1],[2],[3],[4],[5]]`, `NPoints = 3`. -/
theorem smoothdata_slice_bounds_witness :
    ((3 : ℤ) ≤ (([[1], [2], [3], [4], [5]] : List Row).length : ℤ) →
      (∀ i ∈ intRange 0 (halfRange 3),
        0 ≤ (startBounds (halfRange 3) i).1 ∧
        (startBounds (halfRange 3) i).1 < (startBounds (halfRange 3) i).2 ∧
        (startBounds (halfRange 3) i).2 ≤
          (([[1], [2], [3], [4], [5]] : List Row).length : ℤ)) ∧
      (∀ i ∈ intRange (halfRange 3)
          ((([[1], [2], [3], [4], [5]] : List Row).length : ℤ) - halfRange 3),
        0 ≤ (mainBounds (halfRange 3) i).1 ∧
        (mainBounds (halfRange 3) i).1 < (mainBounds (halfRange 3) i).2 ∧
        (mainBounds (halfRange 3) i).2 ≤
          (([[1], [2], [3], [4], [5]] : List Row).length : ℤ)) ∧
      (∀ i ∈ intRange ((([[1], [2], [3], [4], [5]] : List Row).length : ℤ) - halfRange 3)
          (([[1], [2], [3], [4], [5]] : List Row).length : ℤ),
        0 ≤ (endBounds (([[1], [2], [3], [4], [5]] : List Row).length : ℤ)
          (halfRange 3) i).1 ∧
        (endBounds (([[1], [2], [3], [4], [5]] : List Row).length : ℤ)
          (halfRange 3) i).1 <
          (endBounds (([[1], [2], [3], [4], [5]] : List Row).length : ℤ)
            (halfRange 3) i).2 ∧
        (endBounds (([[1], [2], [3], [4], [5]] : List Row).length : ℤ)
          (halfRange 3) i).2 ≤ (([[1], [2], [3], [4], [5]] : List Row).length : ℤ))) ∧
    ((([[1], [2], [3], [4], [5]] : List Row).length : ℤ) < 2 * halfRange 3 →
      (∀ i ∈ intRange ((([[1], [2], [3], [4], [5]] : List Row).length : ℤ) - halfRange 3)
          (([[1], [2], [3], [4], [5]] : List Row).length : ℤ),
        i < halfRange 3 →
        (endBounds (([[1], [2], [3], [4], [5]] : List Row).length : ℤ)
          (halfRange 3) i).1 < 0) ∧
      ∃ i ∈ intRange ((([[1], [2], [3], [4], [5]] : List Row).length : ℤ) - halfRange 3)
          (([[1], [2], [3], [4], [5]] : List Row).length : ℤ),
        (endBounds (([[1], [2], [3], [4], [5]] : List Row).length : ℤ)
          (halfRange 3) i).1 < 0) :=
  smoothdata_slice_bounds [[1], [2], [3], [4], [5]] 3 (by decide)
